import Mathlib

/-!
Verification model of the AI-Intern resume screening core.

The development shallowly embeds the two core Python classes:

* `ResumeScorer` (src/scorer.py): keyword extraction, the triviality check on
  the generative output, and the keyword-overlap fallback of `evaluate`.
  Python strings are modeled through their character lists (`String.data`),
  with structurally recursive replacements for the relevant `str` methods so
  that everything evaluates inside the kernel.  ASCII behaviour of
  `str.lower`, `str.strip`, `str.capitalize` and the regex digit class is
  modeled; the inputs exercised by the claims are ASCII.  Python floats are
  idealized as exact rationals, with `round(x, 2)` modeled as round-half-even
  on the exact value.
* `ResumeRetriever` (src/retriever.py): the sentence-transformer encoder is
  abstracted as an arbitrary function `String → List ℚ` carried by the
  retriever state, and `faiss.IndexFlatL2` is modeled by its documented
  semantics: exact brute-force squared-L2 scan, results sorted by distance
  with ties broken by ascending insertion id, and, when `top_k` exceeds the
  number of stored vectors, padding of the result arrays with id `-1` and
  distance `FLT_MAX`.  The generative pipeline of the scorer is likewise
  abstracted as an oracle value `Option String` (`none` models an exception
  raised by the pipeline call, which `evaluate` catches).
-/

namespace ResumeScorer

/-- Membership in Python `string.punctuation`, which is exactly the ASCII
ranges 33-47, 58-64, 91-96 and 123-126. -/
def isPunct (c : Char) : Bool :=
  (33 ≤ c.toNat && c.toNat ≤ 47) || (58 ≤ c.toNat && c.toNat ≤ 64) ||
    (91 ≤ c.toNat && c.toNat ≤ 96) || (123 ≤ c.toNat && c.toNat ≤ 126)

/-- The stopword set installed by `ResumeScorer.__init__`. -/
def stopwords : List String :=
  ["and", "or", "the", "with", "in", "to", "for", "of", "on", "by", "a", "an",
   "is", "are", "was", "were", "be", "been", "has", "have", "had",
   "experience", "experiences", "skill", "skills", "using", "use", "working", "work",
   "responsibilities", "responsibility", "including", "etc"]

/-- The normalization prefix of `_extract_keywords`: `text.lower()` followed by
`text.translate` sending every punctuation character to a space. -/
def normalizeText (text : String) : String :=
  String.mk ((text.data.map Char.toLower).map (fun c => if isPunct c then ' ' else c))

/-- Python `str.split()` with no arguments: split on whitespace and drop the
empty pieces. -/
def pyTokens (s : String) : List String :=
  ((s.data.splitOnP (fun c => c.isWhitespace)).filter (fun w => !w.isEmpty)).map
    (fun w => String.mk w)

/-- Model of `ResumeScorer._extract_keywords`: normalize, tokenize, and keep
the tokens that are longer than 3 characters and not stopwords, as a set. -/
def extract_keywords (text : String) : Finset String :=
  ((pyTokens (normalizeText text)).filter
    (fun tok => decide (3 < tok.length ∧ tok ∉ stopwords))).toFinset

/-- Round-half-even on an exact rational, the rounding mode of Python
`round`. -/
def pyRound (q : ℚ) : ℤ :=
  if q - ⌊q⌋ < 1 / 2 then ⌊q⌋
  else if 1 / 2 < q - ⌊q⌋ then ⌊q⌋ + 1
  else if ⌊q⌋ % 2 = 0 then ⌊q⌋ else ⌊q⌋ + 1

/-- Model of Python `round(x, 2)` on the rational idealization of the float
value. -/
def round2 (q : ℚ) : ℚ := (pyRound (q * 100) : ℚ) / 100

/-- Python `str.capitalize` (ASCII): first character upper-cased, remaining
characters lower-cased. -/
def capitalize (s : String) : String :=
  match s.data with
  | [] => ""
  | c :: cs => String.mk (c.toUpper :: cs.map Char.toLower)

/-- The fallback score of `evaluate`:
`round(len(common) / len(jd_keywords) * 10, 2)` when the job-description
keyword set is non-empty, and `0.0` otherwise. -/
def fallbackScore (jdK resK : Finset String) : ℚ :=
  if jdK = ∅ then 0
  else round2 ((((jdK ∩ resK).card : ℚ) / (jdK.card : ℚ)) * 10)

/-- Rendering of the two-decimal float score inside the f-string
`"Rating: {score_value}/10. ..."`: the shortest decimal representation of the
rounded value, with a trailing `.0` for whole numbers, exactly as Python
formats the floats produced by `round(x, 2)` at this scale. -/
def formatScore (q : ℚ) : String :=
  if ⌊q * 100⌋ % 100 = 0 then toString (⌊q * 100⌋ / 100) ++ ".0"
  else if (⌊q * 100⌋ % 100) % 10 = 0 then
    toString (⌊q * 100⌋ / 100) ++ "." ++ toString ((⌊q * 100⌋ % 100) / 10)
  else if ⌊q * 100⌋ % 100 < 10 then
    toString (⌊q * 100⌋ / 100) ++ ".0" ++ toString (⌊q * 100⌋ % 100)
  else toString (⌊q * 100⌋ / 100) ++ "." ++ toString (⌊q * 100⌋ % 100)

/-- The first explanation sentence of the fallback branch: the affirmative
sentence over the capitalized, sorted common keywords when the intersection is
non-empty, the fixed negative-overlap sentence otherwise. -/
def fallbackBase (jdK resK : Finset String) : String :=
  if jdK ∩ resK = ∅ then
    "The resume does not show clear keyword overlap with the job description."
  else
    "The resume shows experience in " ++
      String.intercalate (", ") ((Finset.sort (· ≤ ·) (jdK ∩ resK)).map capitalize) ++
      ", which aligns with the job description."

/-- The full fallback explanation: the base sentence, extended by the missing
key terms clause (at most 3 sorted missing keywords) when the difference set
is non-empty. -/
def fallbackExplanation (jdK resK : Finset String) : String :=
  if jdK \ resK = ∅ then fallbackBase jdK resK
  else fallbackBase jdK resK ++
    (" Missing key terms include: " ++
      (String.intercalate (", ")
        (((Finset.sort (· ≤ ·) (jdK \ resK)).take 3).map capitalize) ++ "."))

/-- The fallback result string of `evaluate`. -/
def fallbackResult (jd res : String) : String :=
  "Rating: " ++ formatScore (fallbackScore (extract_keywords jd) (extract_keywords res)) ++
    ("/10. " ++ fallbackExplanation (extract_keywords jd) (extract_keywords res))

/-- Full match of the triviality regex with pattern d+(.d+)? over digits:
one or more digits, optionally followed by a decimal point and one or more
digits, and nothing else (ASCII digit class). -/
def isPureNumber (s : String) : Bool :=
  !(s.data.takeWhile Char.isDigit).isEmpty &&
    (match s.data.dropWhile Char.isDigit with
     | [] => true
     | c :: rest => c == '.' && (!rest.isEmpty && rest.all Char.isDigit))

/-- Python `str.strip()` (ASCII whitespace): drop leading and trailing
whitespace characters. -/
def pyStrip (s : String) : String :=
  String.mk (((s.data.dropWhile Char.isWhitespace).reverse.dropWhile Char.isWhitespace).reverse)

/-- Model of `ResumeScorer.evaluate`.  The generative pipeline call is
abstracted by `genOutput`: `some s` is the generated text, `none` models an
exception raised during generation, which the source catches and turns into an
empty result.  The stripped result is returned verbatim unless it is empty,
purely numeric, or shorter than 20 characters, in which case the deterministic
keyword-overlap fallback string is returned. -/
def evaluate (genOutput : Option String) (job_description resume_text : String) : String :=
  let result :=
    match genOutput with
    | none => ""
    | some s => pyStrip s
  if result = "" ∨ isPureNumber result = true ∨ result.length < 20 then
    fallbackResult job_description resume_text
  else result

end ResumeScorer

/-- The state of a built `faiss.IndexFlatL2`: the dimension passed to the
constructor and the stored vectors in insertion order. -/
structure FaissIndex where
  dim : ℕ
  vectors : List (List ℚ)

/-- Model of the `ResumeRetriever` object: the loaded sentence-transformer is
abstracted as the `encode` function, and `index`/`texts` start as `None`. -/
structure ResumeRetriever where
  encode : String → List ℚ
  index : Option FaissIndex
  texts : Option (List String)

namespace ResumeRetriever

/-- The state produced by `ResumeRetriever.__init__`. -/
def initial (e : String → List ℚ) : ResumeRetriever :=
  { encode := e, index := none, texts := none }

/-- Squared Euclidean distance, the metric of `faiss.IndexFlatL2`. -/
def sqL2 (u v : List ℚ) : ℚ :=
  (List.zipWith (fun a b => (a - b) * (a - b)) u v).sum

/-- The float32 maximum, used by faiss as the distance of padding entries. -/
def fltMax : ℚ := 340282346638528859811704183484516925440

/-- The result order of a faiss search: ascending distance, ties broken by
ascending insertion id. -/
def resultLe (a b : Int × ℚ) : Prop :=
  a.2 < b.2 ∨ (a.2 = b.2 ∧ a.1 ≤ b.1)

/-- Strict version of `resultLe`. -/
def resultLt (a b : Int × ℚ) : Prop :=
  a.2 < b.2 ∨ (a.2 = b.2 ∧ a.1 < b.1)

instance : DecidableRel resultLe := fun a b => by
  unfold resultLe; infer_instance

instance : IsTotal (Int × ℚ) resultLe := by
  constructor
  intro a b
  rcases lt_trichotomy a.2 b.2 with h | h | h
  · exact Or.inl (Or.inl h)
  · rcases le_total a.1 b.1 with h1 | h1
    · exact Or.inl (Or.inr ⟨h, h1⟩)
    · exact Or.inr (Or.inr ⟨h.symm, h1⟩)
  · exact Or.inr (Or.inl h)

instance : IsTrans (Int × ℚ) resultLe := by
  constructor
  intro a b c hab hbc
  rcases hab with h | ⟨he, hi⟩ <;> rcases hbc with h2 | ⟨he2, hi2⟩
  · exact Or.inl (h.trans h2)
  · exact Or.inl (he2 ▸ h)
  · exact Or.inl (he ▸ h2)
  · exact Or.inr ⟨he.trans he2, hi.trans hi2⟩

/-- Model of `faiss.IndexFlatL2.search` on one query vector: score every
stored vector by squared L2 distance, rank by distance with ties broken by
ascending id, return the `k` best, and pad with `(-1, FLT_MAX)` entries when
`k` exceeds the number of stored vectors.  The query is assumed to have the
index dimension, as the pipeline guarantees (faiss asserts it). -/
def faissSearch (idx : FaissIndex) (q : List ℚ) (k : ℕ) : List (Int × ℚ) :=
  (List.insertionSort resultLe
      (idx.vectors.enum.map (fun p => (((p.1 : ℕ) : Int), sqL2 q p.2)))).take k ++
    List.replicate (k - idx.vectors.length) ((-1 : Int), fltMax)

/-- Model of `ResumeRetriever.build_index`: encode all texts, stack them into
an array, read the second component of the array shape (an `IndexError` on an
empty input, a `ValueError` on ragged rows), and store index and texts. -/
def build_index (r : ResumeRetriever) (texts : List String) : Except String ResumeRetriever :=
  match texts.map r.encode with
  | [] => Except.error ("tuple index out of range")
  | v :: rest =>
    if (v :: rest).all (fun w => w.length == v.length) then
      Except.ok { r with
        index := some { dim := v.length, vectors := v :: rest },
        texts := some texts }
    else Except.error ("setting an array element with a sequence")

/-- Model of `ResumeRetriever.search`: raise the not-built `ValueError` when
`build_index` has not stored an index, otherwise encode the query and run the
faiss search. -/
def search (r : ResumeRetriever) (query : String) (top_k : ℕ) :
    Except String (List (Int × ℚ)) :=
  match r.index with
  | none => Except.error ("The FAISS index has not been built. Call build_index() first.")
  | some idx => Except.ok (faissSearch idx (r.encode query) top_k)

end ResumeRetriever

open ResumeScorer ResumeRetriever

lemma fallbackBase_length (kq kc : Finset String) : 31 ≤ (fallbackBase kq kc).length := by
  unfold fallbackBase
  split_ifs
  · decide
  · rw [String.length_append, String.length_append]
    have h : ("The resume shows experience in ").length = 31 := by decide
    omega

lemma fallbackExplanation_length (kq kc : Finset String) :
    31 ≤ (fallbackExplanation kq kc).length := by
  unfold fallbackExplanation
  split_ifs
  · exact fallbackBase_length kq kc
  · rw [String.length_append]
    have := fallbackBase_length kq kc
    omega

lemma fallbackResult_length (jd res : String) : 20 ≤ (fallbackResult jd res).length := by
  unfold fallbackResult
  rw [String.length_append, String.length_append, String.length_append]
  have h1 : ("Rating: ").length = 8 := by decide
  have h2 : ("/10. ").length = 5 := by decide
  have h3 := fallbackExplanation_length (extract_keywords jd) (extract_keywords res)
  omega

lemma ne_empty_of_min_length {s : String} (h : 20 ≤ s.length) : s ≠ ("") := by
  intro he
  rw [he] at h
  exact absurd h (by decide)

/-- C1: for every generative oracle outcome and every pair of input strings,
including empty strings, evaluate returns normally (it is a total function of
the oracle outcome, exceptions included via the none case) and the returned
string is non-empty and never shorter than 20 characters. -/
theorem evaluate_total_and_min_length (gen : Option String) (jd res : String) :
    evaluate gen jd res ≠ ("") ∧ 20 ≤ (evaluate gen jd res).length := by
  have key : 20 ≤ (evaluate gen jd res).length := by
    cases gen with
    | none =>
      have h : evaluate none jd res = fallbackResult jd res := rfl
      rw [h]
      exact fallbackResult_length jd res
    | some s =>
      by_cases hc : pyStrip s = ("") ∨ isPureNumber (pyStrip s) = true ∨ (pyStrip s).length < 20
      · have h : evaluate (some s) jd res = fallbackResult jd res := by
          simp only [evaluate]
          rw [if_pos hc]
        rw [h]
        exact fallbackResult_length jd res
      · have h : evaluate (some s) jd res = pyStrip s := by
          simp only [evaluate]
          rw [if_neg hc]
        rw [h]
        push_neg at hc
        omega
  exact ⟨ne_empty_of_min_length key, key⟩

/-- C2: evaluate routes to the keyword-overlap fallback exactly when the
stripped generative output is empty, purely numeric, or shorter than 20
characters, a generation-time exception being treated as empty output; in all
other cases the stripped output is returned verbatim.  In particular the
outputs listed by the spec route as it states. -/
theorem evaluate_triviality_routing (jd res : String) :
    evaluate none jd res = fallbackResult jd res
  ∧ evaluate (some ("")) jd res = fallbackResult jd res
  ∧ evaluate (some ("7")) jd res = fallbackResult jd res
  ∧ evaluate (some ("7.5")) jd res = fallbackResult jd res
  ∧ (∀ s : String, (pyStrip s).length = 10 →
      evaluate (some s) jd res = fallbackResult jd res)
  ∧ (∀ s : String, (pyStrip s).length = 25 → isPureNumber (pyStrip s) = false →
      evaluate (some s) jd res = pyStrip s)
  ∧ (∀ s : String,
      (pyStrip s = ("") ∨ isPureNumber (pyStrip s) = true ∨ (pyStrip s).length < 20) →
      evaluate (some s) jd res = fallbackResult jd res)
  ∧ (∀ s : String, pyStrip s ≠ ("") → isPureNumber (pyStrip s) = false →
      20 ≤ (pyStrip s).length → evaluate (some s) jd res = pyStrip s) := by
  refine ⟨rfl, rfl, rfl, rfl, ?_, ?_, ?_, ?_⟩
  · intro s h
    simp only [evaluate]
    rw [if_pos (Or.inr (Or.inr (by omega)))]
  · intro s h hp
    have hne : pyStrip s ≠ ("") := by
      intro he
      rw [he] at h
      exact absurd h (by decide)
    have hc : ¬(pyStrip s = ("") ∨ isPureNumber (pyStrip s) = true ∨
        (pyStrip s).length < 20) := by
      push_neg
      exact ⟨hne, by simp [hp], by omega⟩
    simp only [evaluate]
    rw [if_neg hc]
  · intro s hc
    simp only [evaluate]
    rw [if_pos hc]
  · intro s h1 h2 h3
    have hc : ¬(pyStrip s = ("") ∨ isPureNumber (pyStrip s) = true ∨
        (pyStrip s).length < 20) := by
      push_neg
      exact ⟨h1, by simp [h2], by omega⟩
    simp only [evaluate]
    rw [if_neg hc]

/-- Witness for C2: the spec examples evaluated at concrete inputs. -/
theorem evaluate_triviality_routing_witness :
    evaluate (some ("7")) ("") ("") = fallbackResult ("") ("")
  ∧ evaluate (some ("abcdefghij")) ("") ("") = fallbackResult ("") ("")
  ∧ evaluate (some ("abcdefghijklmnopqrstuvwxy")) ("") ("") =
      pyStrip ("abcdefghijklmnopqrstuvwxy") :=
  ⟨(evaluate_triviality_routing ("") ("")).2.2.1,
   (evaluate_triviality_routing ("") ("")).2.2.2.2.1 ("abcdefghij") (by decide),
   (evaluate_triviality_routing ("") ("")).2.2.2.2.2.1 ("abcdefghijklmnopqrstuvwxy")
     (by decide) (by decide)⟩

lemma floor_le_pyRound (q : ℚ) : ⌊q⌋ ≤ pyRound q := by
  unfold pyRound
  split_ifs <;> omega

lemma pyRound_le_floor_add_half (q : ℚ) : pyRound q ≤ ⌊q + 1 / 2⌋ := by
  have hmono : ⌊q⌋ ≤ ⌊q + 1 / 2⌋ := Int.floor_le_floor (by linarith)
  have hfl : (⌊q⌋ : ℚ) ≤ q := Int.floor_le q
  unfold pyRound
  split_ifs with h1 h2 h3
  · exact hmono
  · refine Int.le_floor.mpr ?_
    push_cast
    linarith
  · exact hmono
  · have he : q - ⌊q⌋ = 1 / 2 := le_antisymm (not_lt.mp h2) (not_lt.mp h1)
    refine Int.le_floor.mpr ?_
    push_cast
    linarith

lemma round2_nonneg {q : ℚ} (h : 0 ≤ q) : 0 ≤ round2 q := by
  unfold round2
  have h0 : (0 : ℤ) ≤ ⌊q * 100⌋ := Int.floor_nonneg.mpr (by linarith)
  have hp : (0 : ℤ) ≤ pyRound (q * 100) := le_trans h0 (floor_le_pyRound (q * 100))
  exact div_nonneg (by exact_mod_cast hp) (by norm_num)

lemma round2_le_ten {q : ℚ} (h : q ≤ 10) : round2 q ≤ 10 := by
  unfold round2
  have h1 : pyRound (q * 100) ≤ ⌊q * 100 + 1 / 2⌋ := pyRound_le_floor_add_half _
  have h2 : ⌊q * 100 + 1 / 2⌋ < 1001 := Int.floor_lt.mpr (by push_cast; linarith)
  have h3 : pyRound (q * 100) ≤ 1000 := by omega
  rw [div_le_iff₀ (by norm_num)]
  have h4 : ((pyRound (q * 100) : ℚ)) ≤ 1000 := by exact_mod_cast h3
  linarith

lemma fallbackScore_nonneg (kq kc : Finset String) : 0 ≤ fallbackScore kq kc := by
  unfold fallbackScore
  split_ifs
  · exact le_refl 0
  · apply round2_nonneg
    have h : (0 : ℚ) ≤ ((kq ∩ kc).card : ℚ) / (kq.card : ℚ) :=
      div_nonneg (by positivity) (by positivity)
    linarith

lemma fallbackScore_le_ten (kq kc : Finset String) : fallbackScore kq kc ≤ 10 := by
  unfold fallbackScore
  split_ifs with h
  · norm_num
  · apply round2_le_ten
    have hc : (kq ∩ kc).card ≤ kq.card := Finset.card_le_card Finset.inter_subset_left
    have h0 : 0 < kq.card := Finset.card_pos.mpr (Finset.nonempty_iff_ne_empty.mpr h)
    have h0q : (0 : ℚ) < (kq.card : ℚ) := by exact_mod_cast h0
    have hr : ((kq ∩ kc).card : ℚ) / (kq.card : ℚ) ≤ 1 := by
      rw [div_le_one h0q]
      exact_mod_cast hc
    linarith

/-- C3: in the fallback path, the rating equals
round(card of the intersection over card of the query keywords times 10, 2)
whenever the query keyword set is non-empty, equals 0 when it is empty, and is
always in the interval from 0 to 10. -/
theorem fallbackScore_formula_and_bounds (jd res : String) :
    (extract_keywords jd ≠ ∅ →
      fallbackScore (extract_keywords jd) (extract_keywords res) =
        round2 ((((extract_keywords jd ∩ extract_keywords res).card : ℚ) /
          ((extract_keywords jd).card : ℚ)) * 10))
  ∧ (extract_keywords jd = ∅ →
      fallbackScore (extract_keywords jd) (extract_keywords res) = 0)
  ∧ 0 ≤ fallbackScore (extract_keywords jd) (extract_keywords res)
  ∧ fallbackScore (extract_keywords jd) (extract_keywords res) ≤ 10 := by
  refine ⟨?_, ?_, fallbackScore_nonneg _ _, fallbackScore_le_ten _ _⟩
  · intro h
    unfold fallbackScore
    rw [if_neg h]
  · intro h
    unfold fallbackScore
    rw [if_pos h]

/-- Witness for C3 at concrete inputs, covering both the non-empty and the
empty query keyword set cases. -/
theorem fallbackScore_formula_and_bounds_witness :
    extract_keywords ("python java developer") ≠ ∅
  ∧ fallbackScore (extract_keywords ("python java developer")) (extract_keywords ("python")) =
      round2 ((((extract_keywords ("python java developer") ∩
          extract_keywords ("python")).card : ℚ) /
        ((extract_keywords ("python java developer")).card : ℚ)) * 10)
  ∧ extract_keywords ("") = ∅
  ∧ fallbackScore (extract_keywords ("")) (extract_keywords ("python")) = 0 :=
  ⟨by decide,
   (fallbackScore_formula_and_bounds ("python java developer") ("python")).1 (by decide),
   by decide,
   (fallbackScore_formula_and_bounds ("") ("python")).2.1 (by decide)⟩

/-- C8: every fallback result is the single string
Rating score slash 10 dot explanation, where the explanation is the
affirmative sentence over the capitalized lexicographically sorted overlap
when the intersection is non-empty and the fixed negative-overlap sentence
otherwise, followed by a clause listing at most 3 lexicographically sorted
query-only missing keywords exactly when such keywords exist. -/
theorem fallbackResult_format (jd res : String) :
    fallbackResult jd res =
      "Rating: " ++ formatScore (fallbackScore (extract_keywords jd) (extract_keywords res)) ++
        ("/10. " ++
          ((if extract_keywords jd ∩ extract_keywords res = ∅ then
              "The resume does not show clear keyword overlap with the job description."
            else
              "The resume shows experience in " ++
                String.intercalate (", ")
                  ((Finset.sort (· ≤ ·) (extract_keywords jd ∩ extract_keywords res)).map
                    capitalize) ++
                ", which aligns with the job description.") ++
           (if extract_keywords jd \ extract_keywords res = ∅ then ""
            else " Missing key terms include: " ++
              (String.intercalate (", ")
                (((Finset.sort (· ≤ ·) (extract_keywords jd \ extract_keywords res)).take 3).map
                  capitalize) ++ "."))))
  ∧ ((Finset.sort (· ≤ ·) (extract_keywords jd \ extract_keywords res)).take 3).length ≤ 3
  ∧ List.Sorted (· ≤ ·)
      ((Finset.sort (· ≤ ·) (extract_keywords jd \ extract_keywords res)).take 3)
  ∧ List.Sorted (· ≤ ·)
      (Finset.sort (· ≤ ·) (extract_keywords jd ∩ extract_keywords res)) := by
  refine ⟨?_, ?_, ?_, Finset.sort_sorted _ _⟩
  · unfold fallbackResult fallbackExplanation fallbackBase
    by_cases hm : extract_keywords jd \ extract_keywords res = ∅ <;>
      simp [hm, String.append_empty]
  · rw [List.length_take]
    exact min_le_left _ _
  · exact List.Pairwise.sublist (List.take_sublist _ _) (Finset.sort_sorted _ _)

/-- C9: membership in the extracted keyword set is exactly membership of the
character list of the token among the whitespace-split pieces of the
lowercased, punctuation-stripped text, for non-empty tokens longer than 3
characters that are not stopwords; the result is a set, so duplicates and
order are discarded. -/
theorem extract_keywords_mem (text tok : String) :
    tok ∈ extract_keywords text ↔
      (tok.data ∈ (normalizeText text).data.splitOnP (fun c => c.isWhitespace) ∧
        tok.data ≠ [] ∧ 3 < tok.length ∧ tok ∉ stopwords) := by
  obtain ⟨d⟩ := tok
  unfold extract_keywords pyTokens
  rw [List.mem_toFinset, List.mem_filter]
  simp only [List.mem_map, List.mem_filter, decide_eq_true_iff, String.ext_iff]
  constructor
  · rintro ⟨⟨w, ⟨hw1, hw2⟩, rfl⟩, h3, h4⟩
    exact ⟨hw1, by simpa using hw2, h3, h4⟩
  · rintro ⟨h1, h2, h3, h4⟩
    exact ⟨⟨d, ⟨h1, by simpa using h2⟩, rfl⟩, h3, h4⟩

/-- C7: calling search before build_index has ever been called fails with the
not-built error, for every encoder, every query and every top_k; no result
list is returned. -/
theorem search_before_build_error (e : String → List ℚ) (q : String) (k : ℕ) :
    search (initial e) q k =
      Except.error ("The FAISS index has not been built. Call build_index() first.") := rfl

/-- C6 counterexample: with an empty input sequence, build_index does not
succeed at all, contradicting the claim that the build succeeds and only a
later search fails. -/
theorem build_index_empty_counterexample :
    ¬ ∃ r2, build_index (initial (fun _ => [(0 : ℚ)])) [] = Except.ok r2 := by
  rintro ⟨r2, h⟩
  have h2 : (Except.error ("tuple index out of range") :
      Except String ResumeRetriever) = Except.ok r2 := h
  exact Except.noConfusion h2

/-- C6 amended: on an empty input sequence build_index itself fails with the
IndexError raised while reading the second dimension of the empty embedding
array, the index is never stored, and a subsequent search fails with the
not-built error rather than returning results. -/
theorem build_index_empty_error (e : String → List ℚ) (q : String) (k : ℕ) :
    build_index (initial e) [] = Except.error ("tuple index out of range")
  ∧ search (initial e) q k =
      Except.error ("The FAISS index has not been built. Call build_index() first.") :=
  ⟨rfl, rfl⟩

lemma faissScored_length (idx : FaissIndex) (qe : List ℚ) :
    (idx.vectors.enum.map (fun p => (((p.1 : ℕ) : Int), sqL2 qe p.2))).length =
      idx.vectors.length := by
  simp

lemma faissScored_map_fst (idx : FaissIndex) (qe : List ℚ) :
    (idx.vectors.enum.map (fun p => (((p.1 : ℕ) : Int), sqL2 qe p.2))).map Prod.fst =
      (List.range idx.vectors.length).map (fun i : ℕ => (i : Int)) := by
  rw [List.map_map, ← List.enum_map_fst idx.vectors, List.map_map]
  rfl

lemma faissRanked_length (idx : FaissIndex) (qe : List ℚ) :
    (List.insertionSort resultLe
      (idx.vectors.enum.map (fun p => (((p.1 : ℕ) : Int), sqL2 qe p.2)))).length =
      idx.vectors.length :=
  (List.perm_insertionSort resultLe _).length_eq.trans (faissScored_length idx qe)

lemma faissRanked_map_fst_nodup (idx : FaissIndex) (qe : List ℚ) :
    ((List.insertionSort resultLe
      (idx.vectors.enum.map (fun p => (((p.1 : ℕ) : Int), sqL2 qe p.2)))).map
        Prod.fst).Nodup := by
  have hperm := (List.perm_insertionSort resultLe
    (idx.vectors.enum.map (fun p => (((p.1 : ℕ) : Int), sqL2 qe p.2)))).map Prod.fst
  refine hperm.nodup_iff.mpr ?_
  rw [faissScored_map_fst]
  exact (List.nodup_range _).map Nat.cast_injective

lemma faissSearch_overflow (idx : FaissIndex) (qe : List ℚ) (k : ℕ)
    (hk : idx.vectors.length < k) :
    (faissSearch idx qe k).length = k ∧
    (faissSearch idx qe k).drop idx.vectors.length =
      List.replicate (k - idx.vectors.length) ((-1 : Int), fltMax) ∧
    ((faissSearch idx qe k).take idx.vectors.length).map Prod.fst =
      (List.insertionSort resultLe
        (idx.vectors.enum.map (fun p => (((p.1 : ℕ) : Int), sqL2 qe p.2)))).map Prod.fst ∧
    ((faissSearch idx qe k).take idx.vectors.length).Perm
      (List.insertionSort resultLe
        (idx.vectors.enum.map (fun p => (((p.1 : ℕ) : Int), sqL2 qe p.2)))) ∧
    List.Sorted resultLe ((faissSearch idx qe k).take idx.vectors.length) := by
  have hrlen := faissRanked_length idx qe
  have htake : (List.insertionSort resultLe
      (idx.vectors.enum.map (fun p => (((p.1 : ℕ) : Int), sqL2 qe p.2)))).take k =
      List.insertionSort resultLe
        (idx.vectors.enum.map (fun p => (((p.1 : ℕ) : Int), sqL2 qe p.2))) :=
    List.take_of_length_le (by omega)
  unfold faissSearch
  rw [htake]
  refine ⟨?_, List.drop_left' hrlen, ?_, ?_, ?_⟩
  · rw [List.length_append, hrlen, List.length_replicate]
    omega
  · rw [List.take_left' hrlen]
  · rw [List.take_left' hrlen]
  · rw [List.take_left' hrlen]
    exact List.sorted_insertionSort resultLe _

/-- C4 amended: when top_k exceeds the number n of stored vectors, search
returns (without error) a list of exactly top_k entries whose first n entries
are all n stored entries, fully ranked, and whose remaining entries are the
faiss padding pairs of id -1 and distance FLT_MAX. -/
theorem search_overflow_pads (r : ResumeRetriever) (idx : FaissIndex) (q : String) (k : ℕ)
    (hidx : r.index = some idx) (hk : idx.vectors.length < k) :
    ∃ l, search r q k = Except.ok l ∧
      l.length = k ∧
      l.drop idx.vectors.length =
        List.replicate (k - idx.vectors.length) ((-1 : Int), fltMax) ∧
      ((l.take idx.vectors.length).map Prod.fst).Perm
        ((List.range idx.vectors.length).map (fun i : ℕ => (i : Int))) ∧
      List.Sorted resultLe (l.take idx.vectors.length) := by
  obtain ⟨h1, h2, h3, _, h5⟩ := faissSearch_overflow idx (r.encode q) k hk
  refine ⟨faissSearch idx (r.encode q) k, by simp [search, hidx], h1, h2, ?_, h5⟩
  rw [h3]
  have hperm := (List.perm_insertionSort resultLe
    (idx.vectors.enum.map (fun p => (((p.1 : ℕ) : Int), sqL2 (r.encode q) p.2)))).map Prod.fst
  rw [faissScored_map_fst] at hperm
  exact hperm

/-- The dimension and vector store resulting from indexing one text with a
toy encoder, used as concrete witness data. -/
def toyIndex : FaissIndex := { dim := 1, vectors := [[(0 : ℚ)]] }

/-- A retriever state holding the toy one-vector index. -/
def toyRetriever : ResumeRetriever :=
  { encode := fun _ => [(0 : ℚ)], index := some toyIndex, texts := some (["a"]) }

/-- Witness for C4 amended at a concrete one-vector index with top_k 2. -/
theorem search_overflow_pads_witness :
    ∃ l, search toyRetriever ("jd") 2 = Except.ok l ∧
      l.length = 2 ∧
      l.drop 1 = List.replicate 1 ((-1 : Int), fltMax) ∧
      ((l.take 1).map Prod.fst).Perm ((List.range 1).map (fun i : ℕ => (i : Int))) ∧
      List.Sorted resultLe (l.take 1) :=
  search_overflow_pads toyRetriever toyIndex ("jd") 2 rfl (by decide)

/-- C4 counterexample: on a built one-vector index, search with top_k 2 does
not return exactly the one available entry; it returns two entries, the
second being the faiss padding pair, refuting the claim as stated. -/
theorem search_overflow_counterexample :
    ¬ (∀ (r : ResumeRetriever) (idx : FaissIndex) (q : String) (k : ℕ),
        r.index = some idx → idx.vectors.length < k →
        ∃ l, search r q k = Except.ok l ∧ l.length = idx.vectors.length) := by
  intro h
  obtain ⟨l, hl, hlen⟩ := h toyRetriever toyIndex ("jd") 2 rfl (by decide)
  have hev : search toyRetriever ("jd") 2 =
      Except.ok [(((0 : ℕ) : Int), sqL2 [(0 : ℚ)] [(0 : ℚ)]), ((-1 : Int), fltMax)] := rfl
  rw [hev] at hl
  have hL := Except.ok.inj hl
  rw [← hL] at hlen
  exact absurd hlen (by decide)

lemma faissSearch_prefix_ranked (idx : FaissIndex) (qe : List ℚ) (k : ℕ) :
    List.Pairwise resultLt ((faissSearch idx qe k).take (min k idx.vectors.length)) ∧
    (((faissSearch idx qe k).take (min k idx.vectors.length)).map Prod.fst).Nodup := by
  have hrlen := faissRanked_length idx qe
  have hTlen : ((List.insertionSort resultLe
      (idx.vectors.enum.map (fun p => (((p.1 : ℕ) : Int), sqL2 qe p.2)))).take k).length =
      min k idx.vectors.length := by
    rw [List.length_take, hrlen]
  have htake : (faissSearch idx qe k).take (min k idx.vectors.length) =
      (List.insertionSort resultLe
        (idx.vectors.enum.map (fun p => (((p.1 : ℕ) : Int), sqL2 qe p.2)))).take k := by
    unfold faissSearch
    exact List.take_left' hTlen
  have hsub : ((List.insertionSort resultLe
      (idx.vectors.enum.map (fun p => (((p.1 : ℕ) : Int), sqL2 qe p.2)))).take k).Sublist
      (List.insertionSort resultLe
        (idx.vectors.enum.map (fun p => (((p.1 : ℕ) : Int), sqL2 qe p.2)))) :=
    List.take_sublist k _
  have hnodupT : (((faissSearch idx qe k).take (min k idx.vectors.length)).map
      Prod.fst).Nodup := by
    rw [htake]
    exact (faissRanked_map_fst_nodup idx qe).sublist (hsub.map Prod.fst)
  refine ⟨?_, hnodupT⟩
  have hne : List.Pairwise (fun a b : Int × ℚ => a.1 ≠ b.1)
      ((faissSearch idx qe k).take (min k idx.vectors.length)) :=
    List.pairwise_map.mp hnodupT
  have hle : List.Pairwise resultLe
      ((faissSearch idx qe k).take (min k idx.vectors.length)) := by
    rw [htake]
    exact List.Pairwise.sublist hsub (List.sorted_insertionSort resultLe _)
  refine (hle.and hne).imp ?_
  intro a b hab
  rcases hab with ⟨hab1, hab2⟩
  rcases hab1 with h | ⟨heq, hile⟩
  · exact Or.inl h
  · exact Or.inr ⟨heq, lt_of_le_of_ne hile hab2⟩

/-- C5 amended: for every built index over a non-empty candidate set and
every query, the first min(top_k, n) entries of the search result are sorted
strictly: ascending by distance, entries at equal distance in ascending
insertion-id order, with no duplicate identifiers.  (The claim as frozen
fails only on the trailing faiss padding entries that appear when top_k
exceeds n plus 1; the guarantee holds for the ranked prefix.) -/
theorem search_ranking_prefix (r : ResumeRetriever) (idx : FaissIndex) (q : String) (k : ℕ)
    (hidx : r.index = some idx) (_hne : idx.vectors ≠ []) (_hk : 0 < k) :
    ∃ l, search r q k = Except.ok l ∧
      List.Pairwise resultLt (l.take (min k idx.vectors.length)) ∧
      ((l.take (min k idx.vectors.length)).map Prod.fst).Nodup := by
  obtain ⟨h1, h2⟩ := faissSearch_prefix_ranked idx (r.encode q) k
  exact ⟨faissSearch idx (r.encode q) k, by simp [search, hidx], h1, h2⟩

/-- Witness for C5 amended at a concrete one-vector index with top_k 3. -/
theorem search_ranking_prefix_witness :
    ∃ l, search toyRetriever ("jd") 3 = Except.ok l ∧
      List.Pairwise resultLt (l.take (min 3 1)) ∧
      ((l.take (min 3 1)).map Prod.fst).Nodup :=
  search_ranking_prefix toyRetriever toyIndex ("jd") 3 rfl (by decide) (by decide)

/-- C5 counterexample: on a built one-vector index, search with top_k 3
returns two faiss padding entries that share the identifier -1, so the full
result list has duplicate identifiers, refuting the claim as stated. -/
theorem search_ranking_counterexample :
    ¬ (∀ (r : ResumeRetriever) (idx : FaissIndex) (q : String) (k : ℕ),
        r.index = some idx → idx.vectors ≠ [] →
        ∀ l, search r q k = Except.ok l →
          List.Pairwise resultLt l ∧ (l.map Prod.fst).Nodup) := by
  intro h
  have hev : search toyRetriever ("jd") 3 =
      Except.ok [(((0 : ℕ) : Int), sqL2 [(0 : ℚ)] [(0 : ℚ)]), ((-1 : Int), fltMax),
        ((-1 : Int), fltMax)] := rfl
  have hres := h toyRetriever toyIndex ("jd") 3 rfl (by decide) _ hev
  exact absurd hres.2 (by decide)

lemma round2_lt_ten {q : ℚ} (h : q * 100 + 1 / 2 < 1000) : round2 q < 10 := by
  unfold round2
  have h1 := pyRound_le_floor_add_half (q * 100)
  have h2 : ⌊q * 100 + 1 / 2⌋ < 1000 := Int.floor_lt.mpr (by push_cast; linarith)
  have h3 : pyRound (q * 100) ≤ 999 := by omega
  rw [div_lt_iff₀ (by norm_num)]
  have h4 : ((pyRound (q * 100) : ℚ)) ≤ 999 := by exact_mod_cast h3
  linarith

lemma round2_ten : round2 10 = 10 := by
  unfold round2 pyRound
  have h : (10 : ℚ) * 100 = ((1000 : ℤ) : ℚ) := by norm_num
  rw [h, Int.floor_intCast]
  norm_num

/-- C10 amended: whenever the query keyword set is non-empty and holds at
most 1999 keywords, the fallback rating equals exactly 10 if and only if
every query keyword also occurs in the candidate keyword set, and exactly in
that case the missing-keywords difference set driving the missing-terms
clause is empty.  (Without the cardinality bound the rating can round up to
10 with a keyword missing, see the counterexample.) -/
theorem fallbackScore_ten_iff (kq kc : Finset String) (hne : kq ≠ ∅)
    (hcard : kq.card ≤ 1999) :
    (fallbackScore kq kc = 10 ↔ kq ⊆ kc) ∧ (kq \ kc = ∅ ↔ kq ⊆ kc) := by
  refine ⟨⟨?_, ?_⟩, Finset.sdiff_eq_empty_iff_subset⟩
  · intro h10
    by_contra hsub
    have hssub : kq ∩ kc ⊂ kq := by
      refine ⟨Finset.inter_subset_left, ?_⟩
      intro hsup
      exact hsub (fun x hx => (Finset.mem_inter.mp (hsup hx)).2)
    have hclt : (kq ∩ kc).card < kq.card := Finset.card_lt_card hssub
    have hj0 : 0 < kq.card := Finset.card_pos.mpr (Finset.nonempty_iff_ne_empty.mpr hne)
    have hjq : (0 : ℚ) < (kq.card : ℚ) := by exact_mod_cast hj0
    have hkey : ((((kq ∩ kc).card : ℚ) / (kq.card : ℚ)) * 10) * 100 + 1 / 2 < 1000 := by
      have hcj : ((kq ∩ kc).card : ℚ) ≤ (kq.card : ℚ) - 1 := by
        have hn : (kq ∩ kc).card + 1 ≤ kq.card := hclt
        have hq : ((kq ∩ kc).card : ℚ) + 1 ≤ (kq.card : ℚ) := by exact_mod_cast hn
        linarith
      have hdivle : ((kq ∩ kc).card : ℚ) / (kq.card : ℚ) ≤
          ((kq.card : ℚ) - 1) / (kq.card : ℚ) := by gcongr
      have hfrac : ((kq.card : ℚ) - 1) / (kq.card : ℚ) = 1 - 1 / (kq.card : ℚ) := by
        field_simp
      have hhalf : (1 : ℚ) / 2 < 1000 / (kq.card : ℚ) := by
        rw [div_lt_div_iff₀ (by norm_num) hjq]
        have hb : (kq.card : ℚ) ≤ 1999 := by exact_mod_cast hcard
        linarith
      have hmul : (((kq ∩ kc).card : ℚ) / (kq.card : ℚ)) * 1000 ≤
          (1 - 1 / (kq.card : ℚ)) * 1000 := by
        rw [← hfrac]
        exact mul_le_mul_of_nonneg_right hdivle (by norm_num)
      have hexp : (1 - 1 / (kq.card : ℚ)) * 1000 = 1000 - 1000 / (kq.card : ℚ) := by ring
      nlinarith [hmul, hexp, hhalf]
    have hlt : round2 ((((kq ∩ kc).card : ℚ) / (kq.card : ℚ)) * 10) < 10 :=
      round2_lt_ten hkey
    unfold fallbackScore at h10
    rw [if_neg hne] at h10
    exact absurd h10 (ne_of_lt hlt)
  · intro hsub
    unfold fallbackScore
    rw [if_neg hne, Finset.inter_eq_left.mpr hsub]
    have hj0 : 0 < kq.card := Finset.card_pos.mpr (Finset.nonempty_iff_ne_empty.mpr hne)
    have hjq : (kq.card : ℚ) ≠ 0 := by
      have := hj0.ne'
      exact_mod_cast this
    rw [div_self hjq, one_mul]
    exact round2_ten

/-- Witness for C10 amended at a concrete singleton keyword set. -/
theorem fallbackScore_ten_iff_witness :
    ({"python"} : Finset String) ≠ ∅
  ∧ ({"python"} : Finset String).card ≤ 1999
  ∧ fallbackScore ({"python"} : Finset String) ({"python"} : Finset String) = 10 :=
  ⟨by decide, by decide,
   (fallbackScore_ten_iff ({"python"} : Finset String) ({"python"} : Finset String)
     (by decide) (by decide)).1.mpr (by decide)⟩

/-- A family of pairwise distinct qualifying keywords (length at least 4). -/
def kwString (n : ℕ) : String := String.mk (List.replicate (n + 4) ('a'))

lemma kwString_injective : Function.Injective kwString := by
  intro m n h
  unfold kwString at h
  injection h with h2
  have hlen := congrArg List.length h2
  rw [List.length_replicate, List.length_replicate] at hlen
  omega

/-- Query keyword set with 2001 keywords. -/
def bigQuery : Finset String := (Finset.range 2001).image kwString

/-- Candidate keyword set holding 2000 of the 2001 query keywords. -/
def bigCand : Finset String := (Finset.range 2000).image kwString

lemma bigQuery_card : bigQuery.card = 2001 := by
  unfold bigQuery
  rw [Finset.card_image_of_injective _ kwString_injective, Finset.card_range]

lemma bigCand_card : bigCand.card = 2000 := by
  unfold bigCand
  rw [Finset.card_image_of_injective _ kwString_injective, Finset.card_range]

lemma bigCand_subset : bigCand ⊆ bigQuery :=
  Finset.image_subset_image (Finset.range_subset.mpr (by norm_num))

lemma bigQuery_ne_empty : bigQuery ≠ ∅ := by
  intro h
  have hc := bigQuery_card
  rw [h, Finset.card_empty] at hc
  exact absurd hc (by norm_num)

lemma bigQuery_not_subset : ¬ bigQuery ⊆ bigCand := by
  intro h
  have hm : kwString 2000 ∈ bigQuery := by
    unfold bigQuery
    exact Finset.mem_image.mpr ⟨2000, Finset.mem_range.mpr (by norm_num), rfl⟩
  obtain ⟨m, hm2, he⟩ := Finset.mem_image.mp (h hm)
  have heq := kwString_injective he
  have hlt := Finset.mem_range.mp hm2
  omega

lemma bigScore : fallbackScore bigQuery bigCand = 10 := by
  unfold fallbackScore
  rw [if_neg bigQuery_ne_empty, Finset.inter_eq_right.mpr bigCand_subset,
    bigCand_card, bigQuery_card]
  have hc : (((2000 : ℕ) : ℚ) / ((2001 : ℕ) : ℚ)) * 10 = 20000 / 2001 := by
    push_cast
    ring
  rw [hc]
  unfold round2
  have harg : (20000 : ℚ) / 2001 * 100 = 2000000 / 2001 := by ring
  rw [harg]
  have hfloor : ⌊(2000000 : ℚ) / 2001⌋ = 999 := by
    rw [Int.floor_eq_iff]
    constructor
    · norm_num
    · norm_num
  unfold pyRound
  rw [hfloor]
  have hr1 : ¬((2000000 : ℚ) / 2001 - ((999 : ℤ) : ℚ) < 1 / 2) := by
    push_cast
    norm_num
  rw [if_neg hr1]
  have hr2 : (1 : ℚ) / 2 < (2000000 : ℚ) / 2001 - ((999 : ℤ) : ℚ) := by
    push_cast
    norm_num
  rw [if_pos hr2]
  norm_num

/-- C10 counterexample: with 2001 query keywords of which 2000 occur in the
candidate set, the exact ratio rounds up to exactly 10 although one query
keyword is missing, refuting the claimed equivalence as stated. -/
theorem fallbackScore_ten_counterexample :
    ¬ (∀ (kq kc : Finset String), kq ≠ ∅ →
        ((fallbackScore kq kc = 10 ↔ kq ⊆ kc) ∧ (kq \ kc = ∅ ↔ kq ⊆ kc))) := by
  intro h
  exact bigQuery_not_subset (((h bigQuery bigCand bigQuery_ne_empty).1).mp bigScore)
